import Mathlib

/-!
Shallow embedding of the MultiPCM (Sega 315-5560) emulation core from
`src/emu/cores/multipcm.c`, together with theorems settling the frozen
claims about its specification.

Modelling conventions:
* C unsigned integers become `Nat`; wrap-around is written explicitly as
  `% 2^32` (or `% 65536` for `unsigned short`) at the places the C code
  relies on it.
* C signed integers become `Int`; the C arithmetic right shift `x >> n`
  on signed values is modelled as floor division `asr`.
* The process-wide float-initialised lookup tables (`LPANTABLE`,
  `RPANTABLE`, `lin2expvol`, the LFO scale tables) are carried as
  function-valued fields/parameters; their float initialisation is
  modelled over `ℝ` separately where a claim depends on it.
* Fallible array indexing (the envelope step tables, ROM reads during
  the sample-descriptor rebuild) returns `Option`.
-/

/-- C arithmetic right shift on signed integers (floor division by a
power of two), used for `>>` on `int` values in the source. -/
def asr (x : Int) (n : Nat) : Int := Int.fdiv x (2 ^ n)

/-- Reading an `INT8` ROM cell: reinterpret a byte 0..255 as a signed
value -128..127. -/
def sext8 (b : Nat) : Int := if b < 128 then (b : Int) else (b : Int) - 256

/-- `_STATE` enum: the four envelope generator states. -/
inductive EGSTATE where
  | ATTACK | DECAY1 | DECAY2 | RELEASE
deriving DecidableEq

export EGSTATE (ATTACK DECAY1 DECAY2 RELEASE)

/-- `struct _Sample`: one decoded 12-byte sample descriptor. -/
structure SampleD where
  Start : Nat
  Loop : Nat
  End : Nat
  AR : Nat
  DR1 : Nat
  DR2 : Nat
  DL : Nat
  RR : Nat
  KRS : Nat
  LFOVIB : Nat
  AM : Nat
deriving DecidableEq

/-- The all-zero descriptor (`calloc`ed initial chip state). -/
def zeroSample : SampleD :=
  { Start := 0, Loop := 0, End := 0, AR := 0, DR1 := 0, DR2 := 0,
    DL := 0, RR := 0, KRS := 0, LFOVIB := 0, AM := 0 }

/-- `struct _EG`: per-voice envelope state.  `volume` is a signed
Q(10.16) value; the step rates are the (signed `int`) fields the C code
fills from the unsigned step tables at key-on. -/
structure EGd where
  volume : Int
  state : EGSTATE
  AR : Int
  D1R : Int
  D2R : Int
  RR : Int
  DL : Int
deriving DecidableEq

/-- `struct _LFO`: phase is an `unsigned short`, `phase_step` an
`unsigned int`; `table` and `scale` model the pointers into the
256-entry triangle and scale tables. -/
structure LFOd where
  phase : Nat
  phase_step : Nat
  table : Nat → Int
  scale : Int → Int

/-- `struct _SLOT`: one of the 28 voices.  `SampleIdx` models the
`Sample` pointer into the chip's descriptor table (the C pointer is
`&chip->Samples[i]`, which survives descriptor rebuilds, so an index is
the faithful rendering). -/
structure Slot where
  Regs : Nat → Nat
  Playing : Bool
  SampleIdx : Nat
  Base : Nat
  offset : Nat
  step : Nat
  Pan : Nat
  TL : Nat
  DstTL : Nat
  TLStep : Int
  Prev : Int
  EG : EGd
  PLFO : LFOd
  ALFO : LFOd
  Muted : Bool

/-- `struct _MultiPCM`: the chip.  The float-initialised global tables
(`LPANTABLE`, `RPANTABLE`, `lin2expvol`) are carried as function fields
(the spec itself allows storing them per-chip without behavioural
change). -/
structure MultiPCM where
  Samples : Nat → SampleD
  Slots : List Slot
  ROM : List Nat
  ROMSize : Nat
  ROMMask : Nat
  BankL : Nat
  BankR : Nat
  ARStep : List Nat
  DRStep : List Nat
  lin2expvol : Nat → Int
  LPANTABLE : Nat → Int
  RPANTABLE : Nat → Int

/- ************************ ENVELOPE SECTION ************************ -/

/-- `EG_Update`: advance a voice's envelope by one rendered sample and
return the linear→exponential gain the render loop multiplies by.
Mirrors the C `switch` exactly; the `volume` bound `0x3ff<<16` is the
literal `0x3ff0000`, the DECAY1-skip bound `0x400<<16` is `0x4000000`,
and `DL<<(10-4)` is `DL * 64`. -/
def EG_Update (lin2exp : Nat → Int) (slot : Slot) : Slot × Int :=
  let eg := slot.EG
  let next : Slot :=
    match eg.state with
    | ATTACK =>
        let v := eg.volume + eg.AR
        let st := if (0x4000000 : Int) ≤ eg.D1R then DECAY2 else DECAY1
        if (0x3ff0000 : Int) ≤ v then
          { slot with EG := { eg with volume := 0x3ff0000, state := st } }
        else
          { slot with EG := { eg with volume := v } }
    | DECAY1 =>
        let v := eg.volume - eg.D1R
        let v := if v ≤ 0 then 0 else v
        let st := if asr v 16 ≤ eg.DL * 64 then DECAY2 else DECAY1
        { slot with EG := { eg with volume := v, state := st } }
    | DECAY2 =>
        let v := eg.volume - eg.D2R
        let v := if v ≤ 0 then 0 else v
        { slot with EG := { eg with volume := v } }
    | RELEASE =>
        let v := eg.volume - eg.RR
        if v ≤ 0 then
          { slot with EG := { eg with volume := 0 }, Playing := false }
        else
          { slot with EG := { eg with volume := v } }
  (next, lin2exp (asr next.EG.volume 16).toNat)

/-- `Get_RATE`: envelope step-table lookup.  The C array access
`Steps[r]` with an `int` index is modelled with `Option`: a negative
index (which the C code never guards against) yields `none`. -/
def Get_RATE (Steps : List Nat) (rate : Int) (val : Nat) : Option Nat :=
  let r : Int := 4 * val + rate
  if val = 0 then Steps[0]?
  else if val = 0xf then Steps[0x3f]?
  else
    let r := if (0x3f : Int) < r then 0x3f else r
    if 0 ≤ r then Steps[r.toNat]? else none

/-- The octave computation `((Regs[3]>>4)-1)&0xf` of `EG_Calc` (and the
pitch path): for the byte-valued `Regs[3]` this equals
`((Regs[3]>>4)+15) % 16`, then values with bit 3 set are sign-extended
(`octave = octave - 16`). -/
def egOctave (reg3 : Nat) : Int :=
  let o := ((reg3 >>> 4) + 15) % 16
  if o &&& 8 ≠ 0 then (o : Int) - 16 else (o : Int)

/-- The key-rate value `rate` computed by `EG_Calc`. -/
def egRate (reg3 : Nat) (krs : Nat) : Int :=
  if krs ≠ 0xf then (egOctave reg3 + krs) * 2 + (((reg3 >>> 3) &&& 1 : Nat) : Int)
  else 0

/-- `EG_Calc`: compute the per-voice step rates `(AR, D1R, D2R, RR, DL)`
from the latched sample and `Regs[3]`.  Propagates the `Option` of the
step-table lookups. -/
def EG_Calc (ar dr : List Nat) (reg3 : Nat) (smp : SampleD) :
    Option (Nat × Nat × Nat × Nat × Nat) := do
  let rate := egRate reg3 smp.KRS
  let a ← Get_RATE ar rate smp.AR
  let d1 ← Get_RATE dr rate smp.DR1
  let d2 ← Get_RATE dr rate smp.DR2
  let rr ← Get_RATE dr rate smp.RR
  pure (a, d1, d2, rr, 0xf - smp.DL)

/- ************************ LFO SECTION ************************ -/

/-- `PLFO_Step`: advance the pitch LFO phase (16-bit wrap) and return
the scaled triangle value shifted into Q(n.SHIFT)
(`p << (SHIFT-LFO_SHIFT)` = `p * 16`). -/
def PLFO_Step (l : LFOd) : LFOd × Int :=
  let ph := (l.phase + l.phase_step) % 65536
  let p := l.table ((ph >>> 8) &&& 0xff)
  let p := l.scale (p + 128)
  ({ l with phase := ph }, p * 16)

/-- `ALFO_Step`: advance the amplitude LFO phase and return the scaled
unsigned triangle value shifted into Q(n.SHIFT). -/
def ALFO_Step (l : LFOd) : LFOd × Int :=
  let ph := (l.phase + l.phase_step) % 65536
  let p := l.table ((ph >>> 8) &&& 0xff)
  let p := l.scale p
  ({ l with phase := ph }, p * 16)

/- ************************ RENDER SECTION ************************ -/

/-- The per-voice body of `MultiPCM_update`'s inner loop: one rendered
sample of one slot.  Returns the updated slot and its left/right
contributions `(LPANTABLE[vol]*sample)>>SHIFT`, `(RPANTABLE[vol]*...)`.
Non-playing or muted slots contribute `(0, 0)` and are untouched.
The unchecked ROM read `ROM[(Base+adr)&ROMMask]` is modelled with
`getD _ 0` (the C code performs no bound check there and no claim
depends on the fetched value). -/
def slotRender (ch : MultiPCM) (slot : Slot) : Slot × Int × Int :=
  if slot.Playing && !slot.Muted then
    let smp := ch.Samples slot.SampleIdx
    let vol := (slot.TL >>> 12) ||| (slot.Pan <<< 7)
    let adr := slot.offset >>> 12
    let csample : Int := sext8 (ch.ROM.getD ((slot.Base + adr) &&& ch.ROMMask) 0) * 256
    let fpart : Int := ((slot.offset &&& 4095 : Nat) : Int)
    let sample := asr (csample * fpart + slot.Prev * (4096 - fpart)) 12
    let vib := slot.Regs 6 &&& 7 ≠ 0
    let plfo := if vib then (PLFO_Step slot.PLFO).1 else slot.PLFO
    let step :=
      if vib then (((slot.step : Int) * (PLFO_Step slot.PLFO).2) % 2 ^ 32).toNat >>> 12
      else slot.step
    let off1 := (slot.offset + step) % 2 ^ 32
    let off2 := if smp.End <<< 12 ≤ off1 then smp.Loop <<< 12 else off1
    let prev1 := if adr ≠ off2 >>> 12 then csample else slot.Prev
    let TL1 :=
      if slot.TL >>> 12 ≠ slot.DstTL then (((slot.TL : Int) + slot.TLStep) % 2 ^ 32).toNat
      else slot.TL
    let trem := slot.Regs 7 &&& 7 ≠ 0
    let alfo := if trem then (ALFO_Step slot.ALFO).1 else slot.ALFO
    let sample1 := if trem then asr (sample * (ALFO_Step slot.ALFO).2) 12 else sample
    let slot1 := { slot with
                   PLFO := plfo
                   ALFO := alfo
                   offset := off2
                   Prev := prev1
                   TL := TL1 }
    let egr := EG_Update ch.lin2expvol slot1
    let sample2 := asr (sample1 * egr.2) 10
    (egr.1, asr (ch.LPANTABLE vol * sample2) 12, asr (ch.RPANTABLE vol * sample2) 12)
  else (slot, 0, 0)

/-- One iteration of `MultiPCM_update`'s outer loop: render every slot
once and sum the contributions into the stereo accumulators. -/
def chipStep (ch : MultiPCM) : MultiPCM × Int × Int :=
  let rs := ch.Slots.map (slotRender ch)
  ({ ch with Slots := rs.map Prod.fst },
   (rs.map fun r => r.2.1).sum,
   (rs.map fun r => r.2.2).sum)

/-- The samples `MultiPCM_update` computes for `n` consecutive output
positions, as plain lists (independent of any output buffer). -/
def render (ch : MultiPCM) : Nat → MultiPCM × List Int × List Int
  | 0 => (ch, [], [])
  | n + 1 =>
      let s := chipStep ch
      let t := render s.1 n
      (t.1, s.2.1 :: t.2.1, s.2.2 :: t.2.2)

/-- `MultiPCM_update`: the render loop writing sample `i`, `i+1`, … of
the two caller-supplied output buffers (`outputs[0][i] = smpl;`
`outputs[1][i] = smpr;`), overwriting whatever the buffers held. -/
def MultiPCM_update (ch : MultiPCM) : Nat → Nat → List Int → List Int →
    MultiPCM × List Int × List Int
  | 0, _, bl, br => (ch, bl, br)
  | n + 1, i, bl, br =>
      let s := chipStep ch
      MultiPCM_update s.1 n (i + 1) (bl.set i s.2.1) (br.set i s.2.2)

/- ******************* REGISTER WRITE (reg 4) ******************* -/

/-- `WriteSlot`, `case 4` (key-on / key-off), lines 412–447 of the
source.  `Regs[4]` is stored first; a set high bit latches the sample,
starts the voice and computes the envelope rates (`Option` because the
`EG_Calc` table lookups are fallible); a clear high bit is key-off:
only a playing voice reacts, entering `RELEASE` unless the latched
sample's `RR` is `0xf`, in which case it stops at once. -/
def writeSlotReg4 (ch : MultiPCM) (slot : Slot) (data : Nat) : Option Slot :=
  let slot := { slot with Regs := fun r => if r = 4 then data else slot.Regs r }
  if data &&& 0x80 ≠ 0 then
    let idx := slot.Regs 1
    let smp := ch.Samples idx
    (EG_Calc ch.ARStep ch.DRStep (slot.Regs 3) smp).map fun egv =>
      let base0 := smp.Start
      let base :=
        if 0x100000 ≤ base0 then
          if slot.Pan &&& 8 ≠ 0 then (base0 &&& 0xfffff) ||| ch.BankL
          else (base0 &&& 0xfffff) ||| ch.BankR
        else base0
      { slot with
        SampleIdx := idx, Playing := true, Base := base, offset := 0,
        Prev := 0, TL := slot.DstTL <<< 12,
        EG := { volume := 0, state := ATTACK, AR := egv.1, D1R := egv.2.1,
                D2R := egv.2.2.1, RR := egv.2.2.2.1, DL := egv.2.2.2.2 } }
  else
    some <|
      if slot.Playing then
        if (ch.Samples slot.SampleIdx).RR ≠ 0xf then
          { slot with EG := { slot.EG with state := RELEASE } }
        else
          { slot with Playing := false }
      else slot

/- ************************ ROM SECTION ************************ -/

/-- The `memcpy(ROM + offset, data, len)` of `multipcm_write_rom`. -/
def writeBytes (rom : List Nat) (offset : Nat) (d : List Nat) : List Nat :=
  rom.take offset ++ d ++ rom.drop (offset + d.length)

/-- Decode sample descriptor `i` from the ROM image (total form; reads
use `getD _ 0`, which never differs from the checked reads whenever the
ROM holds at least 6144 bytes — see `parseSampleChecked_eq`). -/
def parseSample (rom : List Nat) (i : Nat) : SampleD :=
  let b := fun k => rom.getD (i * 12 + k) 0
  { Start := (b 0 <<< 16) ||| (b 1 <<< 8) ||| b 2
    Loop := (b 3 <<< 8) ||| b 4
    End := 0xffff - ((b 5 <<< 8) ||| b 6)
    LFOVIB := b 7
    DR1 := b 8 &&& 0xf
    AR := (b 8 >>> 4) &&& 0xf
    DR2 := b 9 &&& 0xf
    DL := (b 9 >>> 4) &&& 0xf
    RR := b 10 &&& 0xf
    KRS := (b 10 >>> 4) &&& 0xf
    AM := b 11 }

/-- Decode sample descriptor `i` with checked ROM reads: an access past
the end of the ROM image yields `none`. -/
def parseSampleChecked (rom : List Nat) (i : Nat) : Option SampleD := do
  let b0 ← rom[i * 12]?
  let b1 ← rom[i * 12 + 1]?
  let b2 ← rom[i * 12 + 2]?
  let b3 ← rom[i * 12 + 3]?
  let b4 ← rom[i * 12 + 4]?
  let b5 ← rom[i * 12 + 5]?
  let b6 ← rom[i * 12 + 6]?
  let b7 ← rom[i * 12 + 7]?
  let b8 ← rom[i * 12 + 8]?
  let b9 ← rom[i * 12 + 9]?
  let b10 ← rom[i * 12 + 10]?
  let b11 ← rom[i * 12 + 11]?
  pure { Start := (b0 <<< 16) ||| (b1 <<< 8) ||| b2
         Loop := (b3 <<< 8) ||| b4
         End := 0xffff - ((b5 <<< 8) ||| b6)
         LFOVIB := b7
         DR1 := b8 &&& 0xf
         AR := (b8 >>> 4) &&& 0xf
         DR2 := b9 &&& 0xf
         DL := (b9 >>> 4) &&& 0xf
         RR := b10 &&& 0xf
         KRS := (b10 >>> 4) &&& 0xf
         AM := b11 }

/-- Checked decode of descriptors `first, first+1, …` (`count` many),
in the order of the C rebuild loop; fails on the first out-of-bounds
ROM read. -/
def parseRunChecked (rom : List Nat) (first : Nat) : Nat → Option (List SampleD)
  | 0 => some []
  | n + 1 =>
      (parseSampleChecked rom first).bind fun s =>
        (parseRunChecked rom (first + 1) n).map fun l => s :: l

/-- `multipcm_write_rom`: the truncation test compares the *32-bit*
sum `(offset + length) % 2^32` against `ROMSize` (the C operands are
`UINT32`, so `offset + length` wraps), then copies and rebuilds all 512
descriptors whenever `offset < 0x200*12` (the C condition — it does not
look at the length).  When the sum wraps below `ROMSize` the truncation
is skipped and the C `memcpy` overruns the ROM buffer; this total form
is faithful only where `write_rom_checked` succeeds (the library-level
theorems carry the corresponding hypotheses). -/
def multipcm_write_rom (ch : MultiPCM) (offset length : Nat) (data : List Nat) :
    MultiPCM :=
  if ch.ROMSize < offset then ch
  else
    let len := if ch.ROMSize < (offset + length) % 2 ^ 32
               then ch.ROMSize - offset else length
    let rom1 := writeBytes ch.ROM offset (data.take len)
    let ch1 := { ch with ROM := rom1 }
    if offset < 0x200 * 12 then { ch1 with Samples := fun i => parseSample rom1 i }
    else ch1

/-- `multipcm_write_rom` with the memory accesses checked: `none` when
the (possibly not-truncated, because the 32-bit `offset + length`
wrapped) `memcpy` would write past the ROM end, or when the descriptor
rebuild reads a byte past the end of the ROM image. -/
def write_rom_checked (ch : MultiPCM) (offset length : Nat) (data : List Nat) :
    Option MultiPCM :=
  if ch.ROMSize < offset then some ch
  else
    let len := if ch.ROMSize < (offset + length) % 2 ^ 32
               then ch.ROMSize - offset else length
    if ch.ROMSize < offset + len then none
    else
      let rom1 := writeBytes ch.ROM offset (data.take len)
      let ch1 := { ch with ROM := rom1 }
      if offset < 0x200 * 12 then
        (parseRunChecked rom1 0 512).map fun l =>
          { ch1 with Samples := fun i => l.getD i zeroSample }
      else some ch1

/-- The `for (ROMMask = 1; ROMMask < memsize; ROMMask <<= 1);` loop of
`multipcm_alloc_rom`.  `ROMMask` is `UINT32`, so the shift wraps:
`m ↦ (2*m) % 2^32`.  The fuel makes the model total; `none` means the
loop has not stopped within the fuel.  On a 32-bit `memsize` the mask
either reaches `memsize` within 32 doublings or wraps to 0 and stays 0
forever, so any fuel ≥ 33 decides termination (`maskLoopW_diverges`
shows the `none` results hold for *every* fuel). -/
def maskLoopW (size : Nat) : Nat → Nat → Option Nat
  | 0, m => if m < size then none else some m
  | fuel + 1, m => if m < size then maskLoopW size fuel ((2 * m) % 2 ^ 32) else some m

/-- `multipcm_alloc_rom`: a no-op when the size is unchanged; otherwise
resize, fill with `0xFF` and recompute `ROMMask` with the wrapping
doubling loop; `none` models the C loop never terminating. -/
def multipcm_alloc_rom (ch : MultiPCM) (memsize : Nat) : Option MultiPCM :=
  if ch.ROMSize = memsize then some ch
  else
    (maskLoopW memsize 64 1).map fun m =>
      { ch with
        ROM := List.replicate memsize 0xFF
        ROMSize := memsize
        ROMMask := m - 1 }

/- ************* PAN/VOLUME LUT (float model over ℝ) ************* -/

/-- The TL attenuation factor of one pan/volume LUT entry:
`pow(10, (iTL * -24/0x40)/20)` with the final global `TL /= 4.0`
folded in.  The C `float` arithmetic is idealised over `ℝ`. -/
noncomputable def panAttnTL (i : Nat) : ℝ :=
  (10 : ℝ) ^ ((((i &&& 0x7f : Nat) : ℝ) * (-24) / 64) / 20) / 4

/-- The `(LPAN, RPAN)` pair the LUT initialisation computes for a pan
nibble, following the four branches of `device_start_multipcm`. -/
noncomputable def panLR (iPAN : Nat) : ℝ × ℝ :=
  if iPAN = 0x8 then (0, 0)
  else if iPAN = 0x0 then (1, 1)
  else if iPAN &&& 8 ≠ 0 then
    let j := 0x10 - iPAN
    (1, if j &&& 7 = 7 then 0 else (10 : ℝ) ^ (((j : ℝ) * (-12) / 4) / 20))
  else
    (if iPAN &&& 7 = 7 then 0 else (10 : ℝ) ^ (((iPAN : ℝ) * (-12) / 4) / 20), 1)

/-- `LPANTABLE[i] = FIX(LPAN*TL)`; the cast of the non-negative float
to `UINT32` is a floor. -/
noncomputable def LPANTABLEr (i : Nat) : Int :=
  ⌊(4096 : ℝ) * ((panLR ((i >>> 7) &&& 0xf)).1 * panAttnTL i)⌋

/-- `RPANTABLE[i] = FIX(RPAN*TL)`. -/
noncomputable def RPANTABLEr (i : Nat) : Int :=
  ⌊(4096 : ℝ) * ((panLR ((i >>> 7) &&& 0xf)).2 * panAttnTL i)⌋

/- ************* concrete states used by witnesses ************* -/

/-- A quiescent LFO. -/
def lfo0 : LFOd := { phase := 0, phase_step := 0, table := fun _ => 0, scale := fun _ => 0 }

/-- A zeroed envelope. -/
def eg0 : EGd :=
  { volume := 0, state := ATTACK, AR := 0, D1R := 0, D2R := 0, RR := 0, DL := 0 }

/-- A zeroed (`calloc`ed, then reset) voice. -/
def slot0 : Slot :=
  { Regs := fun _ => 0, Playing := false, SampleIdx := 0, Base := 0, offset := 0,
    step := 0, Pan := 0, TL := 0, DstTL := 0, TLStep := 0, Prev := 0,
    EG := eg0, PLFO := lfo0, ALFO := lfo0, Muted := false }

/-- A freshly created chip with no ROM and trivial tables. -/
def chip0 : MultiPCM :=
  { Samples := fun _ => zeroSample, Slots := [], ROM := [], ROMSize := 0,
    ROMMask := 0, BankL := 0, BankR := 0, ARStep := List.replicate 64 0,
    DRStep := List.replicate 64 0, lin2expvol := fun _ => 0,
    LPANTABLE := fun _ => 0, RPANTABLE := fun _ => 0 }

/- ************************ THEOREMS ************************ -/

/-- C1: for every voice and every single `EG_Update` step, while the EG
state is DECAY1, DECAY2 or RELEASE the volume does not increase; while
it is ATTACK the volume does not decrease; and `0 ≤ volume ≤ 0x3ff<<16`
is preserved, provided the precomputed step rates are non-negative (as
the values `EG_Calc` takes from the unsigned step tables are). -/
theorem EG_Update_monotone_bounded (lin2exp : Nat → Int) (slot : Slot)
    (h0 : 0 ≤ slot.EG.volume) (h1 : slot.EG.volume ≤ 0x3ff0000)
    (hAR : 0 ≤ slot.EG.AR) (hD1 : 0 ≤ slot.EG.D1R)
    (hD2 : 0 ≤ slot.EG.D2R) (hRR : 0 ≤ slot.EG.RR) :
    ((slot.EG.state = DECAY1 ∨ slot.EG.state = DECAY2 ∨ slot.EG.state = RELEASE) →
        (EG_Update lin2exp slot).1.EG.volume ≤ slot.EG.volume) ∧
    (slot.EG.state = ATTACK → slot.EG.volume ≤ (EG_Update lin2exp slot).1.EG.volume) ∧
    0 ≤ (EG_Update lin2exp slot).1.EG.volume ∧
    (EG_Update lin2exp slot).1.EG.volume ≤ 0x3ff0000 := by
  obtain ⟨regs, pl, si, base, off, st, pan, tl, dst, tls, prev, eg, plf, alf, mu⟩ := slot
  obtain ⟨v, s, a, d1, d2, rr, dl⟩ := eg
  simp only [EGd.volume, EGd.state, Slot.EG] at *
  cases s <;> simp only [EG_Update] <;> split_ifs <;>
    simp_all <;> omega

/-- Witness for C1: a concrete attacking voice. -/
def slotC1 : Slot := { slot0 with EG := { eg0 with state := ATTACK, AR := 5, volume := 7 } }

/-- C1 witness: `EG_Update_monotone_bounded` applied to `slotC1`. -/
theorem EG_Update_monotone_bounded_w :
    (slotC1.EG.state = ATTACK → slotC1.EG.volume ≤
        (EG_Update (fun _ => 0) slotC1).1.EG.volume) ∧
    0 ≤ (EG_Update (fun _ => 0) slotC1).1.EG.volume ∧
    (EG_Update (fun _ => 0) slotC1).1.EG.volume ≤ 0x3ff0000 :=
  (EG_Update_monotone_bounded (fun _ => 0) slotC1 (by decide) (by decide)
    (by decide) (by decide) (by decide) (by decide)).2

/-- The sample descriptor exhibiting claim C9's rate underflow:
`KRS = 0`, `AR = 1`. -/
def smpC9 : SampleD := { zeroSample with AR := 1, DR1 := 1, KRS := 0 }

/-- C9: with `Regs[3] = 0x90` (octave −8) and a sample with `KRS = 0`
and rate nibble `1`, `EG_Calc`'s rate is −16 and the step-table index
`4·1 + (−16) = −12` is negative, so the checked `ARStep` lookup of
`Get_RATE` hits its error branch — for any table contents (`Get_RATE`
clamps only the upper end at 0x3f, never the lower). -/
theorem EG_Calc_rate_underflow (ar dr : List Nat) :
    egRate 0x90 smpC9.KRS = -16 ∧
    Get_RATE ar (egRate 0x90 smpC9.KRS) smpC9.AR = none ∧
    EG_Calc ar dr 0x90 smpC9 = none := by
  have hrate : egRate 0x90 smpC9.KRS = -16 := by decide
  refine ⟨hrate, ?_, ?_⟩
  · rw [hrate]; simp [Get_RATE, smpC9, zeroSample]
  · simp only [EG_Calc, smpC9, zeroSample]
    rw [show egRate 0x90 ({ zeroSample with AR := 1, DR1 := 1, KRS := 0 } : SampleD).KRS
          = -16 from hrate]
    simp [Get_RATE]

/-- C10: the sample-descriptor rebuild of `write_rom` reads ROM bytes
0..6143 unconditionally once `offset < 6144`; on a chip whose ROM is
smaller (here: empty, with `offset = ROMSize = 0` and an in-range
written length of zero) the checked embedding's out-of-bounds branch is
reached. -/
theorem write_rom_checked_oob : write_rom_checked chip0 0 0 [] = none := rfl

/-- When terminating within its fuel, the wrapping doubling loop of
`multipcm_alloc_rom` computes the least multiple of `m` of the form
`2^j·m` that is `≥ size`; for `size ≤ 2^31` the 32-bit wrap never
fires. -/
theorem maskLoopW_spec (size : Nat) (hsz : size ≤ 2 ^ 31) :
    ∀ fuel m, 0 < m → size ≤ 2 ^ fuel * m →
    ∃ R, maskLoopW size fuel m = some R ∧ size ≤ R ∧ (∃ j, R = 2 ^ j * m) ∧
      ∀ j, size ≤ 2 ^ j * m → R ≤ 2 ^ j * m := by
  intro fuel
  induction fuel with
  | zero =>
      intro m hm h
      simp only [pow_zero, one_mul] at h
      refine ⟨m, by simp [maskLoopW, Nat.not_lt.2 h], h, ⟨0, by simp⟩, ?_⟩
      intro j hj
      exact Nat.le_mul_of_pos_left m (Nat.pos_pow_of_pos j (by norm_num))
  | succ fuel ih =>
      intro m hm h
      by_cases hlt : m < size
      · have hmod : (2 * m) % 2 ^ 32 = 2 * m := by
          apply Nat.mod_eq_of_lt
          have e : (2 : Nat) ^ 31 + 2 ^ 31 = 2 ^ 32 := by norm_num
          omega
        have h2 : size ≤ 2 ^ fuel * (2 * m) := by
          rw [pow_succ, Nat.mul_assoc] at h; exact h
        obtain ⟨R, hRe, hRs, ⟨j, hj⟩, hmin⟩ := ih (2 * m) (by omega) h2
        refine ⟨R, ?_, hRs, ⟨j + 1, by rw [hj]; ring⟩, ?_⟩
        · simp only [maskLoopW, if_pos hlt, hmod, hRe]
        · intro j' hj'
          cases j' with
          | zero =>
              simp only [pow_zero, one_mul] at hj'; omega
          | succ j'' =>
              have hj'2 : size ≤ 2 ^ j'' * (2 * m) := by
                rw [pow_succ, Nat.mul_assoc] at hj'; exact hj'
              calc R ≤ 2 ^ j'' * (2 * m) := hmin j'' hj'2
                _ = 2 ^ (j'' + 1) * m := by ring
      · refine ⟨m, by simp [maskLoopW, hlt], by omega, ⟨0, by simp⟩, ?_⟩
        intro j hj
        exact Nat.le_mul_of_pos_left m (Nat.pos_pow_of_pos j (by norm_num))

/-- For `2^31 < size < 2^32` the wrapping doubling loop never
terminates, for *any* fuel: starting from any mask in its orbit (0 or a
power of two up to `2^31`) the mask stays below `size` forever, wrapping
from `2^31` to 0. -/
theorem maskLoopW_diverges (size : Nat) (h1 : 2 ^ 31 < size) (h2 : size < 2 ^ 32) :
    ∀ fuel m, (m = 0 ∨ ∃ k, k ≤ 31 ∧ m = 2 ^ k) → maskLoopW size fuel m = none := by
  have horb : ∀ m, (m = 0 ∨ ∃ k, k ≤ 31 ∧ m = 2 ^ k) → m < size := by
    intro m hm
    rcases hm with rfl | ⟨k, hk, rfl⟩
    · omega
    · have : (2 : Nat) ^ k ≤ 2 ^ 31 := Nat.pow_le_pow_right (by norm_num) hk
      omega
  have hstep : ∀ m, (m = 0 ∨ ∃ k, k ≤ 31 ∧ m = 2 ^ k) →
      ((2 * m) % 2 ^ 32 = 0 ∨ ∃ k, k ≤ 31 ∧ (2 * m) % 2 ^ 32 = 2 ^ k) := by
    intro m hm
    rcases hm with rfl | ⟨k, hk, rfl⟩
    · left; simp
    · rcases Nat.lt_or_ge k 31 with hk31 | hk31
      · right
        refine ⟨k + 1, by omega, ?_⟩
        have hle : (2 : Nat) ^ (k + 1) ≤ 2 ^ 31 := Nat.pow_le_pow_right (by norm_num) (by omega)
        have h2k : (2 : Nat) * 2 ^ k = 2 ^ (k + 1) := by ring
        have hlt : 2 * 2 ^ k < 2 ^ 32 := by
          have e : (2 : Nat) ^ 31 + 2 ^ 31 = 2 ^ 32 := by norm_num
          omega
        rw [Nat.mod_eq_of_lt hlt, h2k]
      · have hk31' : k = 31 := by omega
        subst hk31'
        left
        have e : (2 : Nat) * 2 ^ 31 = 2 ^ 32 := by norm_num
        rw [e, Nat.mod_self]
  intro fuel
  induction fuel with
  | zero =>
      intro m hm
      simp [maskLoopW, horb m hm]
  | succ fuel ih =>
      intro m hm
      simp only [maskLoopW, if_pos (horb m hm)]
      exact ih _ (hstep m hm)

/-- C8 counterexample: `alloc_rom` at the 32-bit size `2^31 + 1` never
completes — the `ROMMask <<= 1` loop wraps the `UINT32` mask from
`2^31` to 0 and spins forever, so no `ROMMask` of the claimed form is
ever set (the model's fueled loop reports `none`). -/
theorem multipcm_alloc_rom_cex : multipcm_alloc_rom chip0 (2 ^ 31 + 1) = none := rfl

/-- C8 (amended): `alloc_rom` with the current size leaves the chip
unchanged; with a different size `≤ 2^31` it sets `ROMSize`, fills the
whole ROM buffer with `0xFF`, and sets `ROMMask` to the smallest value
of the form `2^k − 1` that is `≥ size − 1`; for a different size in
`(2^31, 2^32)` the doubling loop wraps to 0 and never terminates (the
loop reports `none` for every fuel). -/
theorem multipcm_alloc_rom_spec (ch : MultiPCM) (size : Nat) :
    (size = ch.ROMSize → multipcm_alloc_rom ch size = some ch) ∧
    (size ≠ ch.ROMSize → size ≤ 2 ^ 31 →
      ∃ c, multipcm_alloc_rom ch size = some c ∧ c.ROMSize = size ∧
        c.ROM = List.replicate size 0xFF ∧
        ∃ k, c.ROMMask = 2 ^ k - 1 ∧
          size - 1 ≤ 2 ^ k - 1 ∧ ∀ j, size - 1 ≤ 2 ^ j - 1 → 2 ^ k - 1 ≤ 2 ^ j - 1) ∧
    (size ≠ ch.ROMSize → 2 ^ 31 < size → size < 2 ^ 32 →
      multipcm_alloc_rom ch size = none ∧ ∀ fuel, maskLoopW size fuel 1 = none) := by
  refine ⟨?_, ?_, ?_⟩
  · intro h
    simp [multipcm_alloc_rom, h.symm]
  · intro h hsz
    have hne : ¬ ch.ROMSize = size := fun hh => h hh.symm
    have hfuel : size ≤ 2 ^ 64 * 1 := by
      have e : (2 : Nat) ^ 31 ≤ 2 ^ 64 := by norm_num
      omega
    obtain ⟨R, hRe, hRs, ⟨j, hj⟩, hmin⟩ := maskLoopW_spec size hsz 64 1 (by norm_num) hfuel
    rw [mul_one] at hj
    refine ⟨{ ch with
              ROM := List.replicate size 0xFF
              ROMSize := size
              ROMMask := R - 1 }, ?_, rfl, rfl, j, by rw [hj], ?_, ?_⟩
    · simp [multipcm_alloc_rom, hne, hRe]
    · omega
    · intro j' hj'
      have hp : (1 : Nat) ≤ 2 ^ j' := Nat.one_le_two_pow
      have hsz' : size ≤ 2 ^ j' * 1 := by omega
      have := hmin j' hsz'
      rw [mul_one] at this; omega
  · intro h h31 h32
    have hne : ¬ ch.ROMSize = size := fun hh => h hh.symm
    have hdiv := maskLoopW_diverges size h31 h32
    constructor
    · simp [multipcm_alloc_rom, hne, hdiv 64 1 (Or.inr ⟨0, by omega, rfl⟩)]
    · intro fuel
      exact hdiv fuel 1 (Or.inr ⟨0, by omega, rfl⟩)

/-- C8 witness: `multipcm_alloc_rom_spec` at the fresh chip, for the
unchanged size 0, a changed in-range size 5, and the diverging size
`2^31 + 1`. -/
theorem multipcm_alloc_rom_spec_w :
    multipcm_alloc_rom chip0 0 = some chip0 ∧
    (∃ c, multipcm_alloc_rom chip0 5 = some c ∧ c.ROMSize = 5 ∧
      c.ROM = List.replicate 5 0xFF ∧
      ∃ k, c.ROMMask = 2 ^ k - 1 ∧
        5 - 1 ≤ 2 ^ k - 1 ∧ ∀ j, 5 - 1 ≤ 2 ^ j - 1 → 2 ^ k - 1 ≤ 2 ^ j - 1) ∧
    (multipcm_alloc_rom chip0 (2 ^ 31 + 1) = none ∧
      ∀ fuel, maskLoopW (2 ^ 31 + 1) fuel 1 = none) :=
  ⟨(multipcm_alloc_rom_spec chip0 0).1 rfl,
   (multipcm_alloc_rom_spec chip0 5).2.1 (by decide) (by norm_num),
   (multipcm_alloc_rom_spec chip0 (2 ^ 31 + 1)).2.2 (by decide) (by norm_num)
     (by norm_num)⟩

/-- C4 counterexample: key-off (`Regs[4]` high bit clear) on a voice
that is not playing, whose latched sample has `RR ≠ 0xf`, does *not*
set the EG state to `RELEASE` — the C code reacts only
`if(slot->Playing)`.  Here the state stays `ATTACK`. -/
theorem writeSlotReg4_keyoff_cex :
    (chip0.Samples slot0.SampleIdx).RR ≠ 0xf ∧ slot0.Playing = false ∧
    ((writeSlotReg4 chip0 slot0 0).map fun s => s.EG.state) = some ATTACK := by
  exact ⟨by decide, by decide, rfl⟩

/-- C4 (amended): key-off never fails; on a *playing* voice it enters
`RELEASE` when the latched sample's `RR ≠ 0xf` and clears `Playing`
immediately when `RR = 0xf`; whenever `RR = 0xf` the `Playing` flag is
0 right after the write (hence before the next rendered sample); a
non-playing voice keeps its envelope and stays stopped. -/
theorem writeSlotReg4_keyoff (ch : MultiPCM) (slot : Slot) (data : Nat)
    (hbit : data &&& 0x80 = 0) :
    ∃ s, writeSlotReg4 ch slot data = some s ∧
      (slot.Playing = true → (ch.Samples slot.SampleIdx).RR ≠ 0xf →
          s.EG.state = RELEASE ∧ s.Playing = true) ∧
      (slot.Playing = true → (ch.Samples slot.SampleIdx).RR = 0xf →
          s.Playing = false) ∧
      ((ch.Samples slot.SampleIdx).RR = 0xf → s.Playing = false) ∧
      (slot.Playing = false → s.EG = slot.EG ∧ s.Playing = false) := by
  obtain ⟨regs, pl, si, base, off, st, pan, tl, dst, tls, prev, eg, plf, alf, mu⟩ := slot
  simp only [writeSlotReg4, Slot.Playing, Slot.SampleIdx, Slot.EG] at *
  rw [if_neg (by simp [hbit])]
  cases pl
  · exact ⟨_, rfl, by simp, by simp, by simp, by simp⟩
  · by_cases hRR : (ch.Samples si).RR = 0xf
    · refine ⟨_, rfl, ?_, ?_, ?_, ?_⟩ <;> simp [hRR]
    · refine ⟨_, rfl, ?_, ?_, ?_, ?_⟩ <;> simp [hRR]

/-- Concrete playing voice for the C4 witness. -/
def slotC4 : Slot := { slot0 with Playing := true }

/-- Concrete chip whose descriptors all have `RR = 3` for the C4
witness. -/
def chipC4 : MultiPCM := { chip0 with Samples := fun _ => { zeroSample with RR := 3 } }

/-- C4 witness: `writeSlotReg4_keyoff` at a concrete playing voice. -/
theorem writeSlotReg4_keyoff_w :
    ∃ s, writeSlotReg4 chipC4 slotC4 0 = some s ∧
      (slotC4.Playing = true → (chipC4.Samples slotC4.SampleIdx).RR ≠ 0xf →
          s.EG.state = RELEASE ∧ s.Playing = true) ∧
      (slotC4.Playing = true → (chipC4.Samples slotC4.SampleIdx).RR = 0xf →
          s.Playing = false) ∧
      ((chipC4.Samples slotC4.SampleIdx).RR = 0xf → s.Playing = false) ∧
      (slotC4.Playing = false → s.EG = slotC4.EG ∧ s.Playing = false) :=
  writeSlotReg4_keyoff chipC4 slotC4 0 (by decide)

/-- `getD` on an append, inside the left part. -/
theorem getD_append_lt (l l' : List Nat) (k : Nat) (h : k < l.length) :
    (l ++ l').getD k 0 = l.getD k 0 := by
  simp [List.getD_eq_getElem?_getD, List.getElem?_append_left h]

/-- The 12 bytes of claim C2. -/
def bytesC2 : List Nat := [0x01, 0x02, 0x03, 0x04, 0x05, 0x00, 0x10, 0, 0, 0, 0, 0]

/-- Concrete chip with a zeroed 6144-byte ROM (C2 scenario). -/
def chipC2 : MultiPCM := { chip0 with ROM := List.replicate 6144 0, ROMSize := 6144 }

/-- C2 counterexample: after `write_rom(0, 12, bytesC2)`, descriptor 0's
`End` is `0xffff − ((bytes[5]<<8)|bytes[6])` = `0xffff − 0x0010 = 0xffef`,
not the claimed `0xfaff` (which would need `0x0500` at bytes 5..6 — but
those bytes are `00 10`). -/
theorem write_rom_byte_order_cex :
    ((multipcm_write_rom chipC2 0 12 bytesC2).Samples 0).End ≠ 0xfaff := by decide

/-- C2 (amended): after `write_rom(0, 12, bytesC2)` on any chip whose
ROM holds at least 6144 bytes, descriptor 0 has `Start = 0x010203`,
`Loop = 0x0405`, and `End = 0xffff − 0x0010 = 0xffef`. -/
theorem write_rom_byte_order (ch : MultiPCM)
    (_hlen : ch.ROM.length = ch.ROMSize) (h6 : 6144 ≤ ch.ROMSize) :
    ((multipcm_write_rom ch 0 12 bytesC2).Samples 0).Start = 0x010203 ∧
    ((multipcm_write_rom ch 0 12 bytesC2).Samples 0).Loop = 0x0405 ∧
    ((multipcm_write_rom ch 0 12 bytesC2).Samples 0).End = 0xffef := by
  have hns : ¬ ch.ROMSize < 0 := by omega
  have hcond : ¬ ch.ROMSize < (0 + 12) % 2 ^ 32 := by
    rw [Nat.mod_eq_of_lt (by norm_num)]
    omega
  simp only [multipcm_write_rom, if_neg hns, if_neg hcond]
  rw [if_pos (by norm_num)]
  have hwb : writeBytes ch.ROM 0 (bytesC2.take 12) = bytesC2 ++ ch.ROM.drop 12 := rfl
  simp only [hwb, parseSample]
  have hb : ∀ k, k < 12 → (bytesC2 ++ ch.ROM.drop 12).getD (0 * 12 + k) 0 = bytesC2.getD k 0 := by
    intro k hk
    have : (0 * 12 + k) = k := by omega
    rw [this]
    exact getD_append_lt _ _ _ (by simp [bytesC2]; omega)
  rw [hb 0 (by norm_num), hb 1 (by norm_num), hb 2 (by norm_num), hb 3 (by norm_num),
      hb 4 (by norm_num), hb 5 (by norm_num), hb 6 (by norm_num)]
  decide

/-- C2 witness: `write_rom_byte_order` at the concrete 6144-byte chip. -/
theorem write_rom_byte_order_w :
    ((multipcm_write_rom chipC2 0 12 bytesC2).Samples 0).Start = 0x010203 ∧
    ((multipcm_write_rom chipC2 0 12 bytesC2).Samples 0).Loop = 0x0405 ∧
    ((multipcm_write_rom chipC2 0 12 bytesC2).Samples 0).End = 0xffef :=
  write_rom_byte_order chipC2
    (by rw [show chipC2.ROM = List.replicate 6144 0 from rfl, List.length_replicate]
        exact rfl)
    (Nat.le_refl 6144)

/-- `writeBytes` preserves the ROM size when the write fits. -/
theorem writeBytes_length (rom d : List Nat) (offset : Nat)
    (h : offset + d.length ≤ rom.length) :
    (writeBytes rom offset d).length = rom.length := by
  simp only [writeBytes, List.length_append, List.length_take, List.length_drop]
  omega

/-- Bytes outside the written window are unchanged by `writeBytes`. -/
theorem writeBytes_getD_outside (rom d : List Nat) (offset i : Nat)
    (h : offset + d.length ≤ rom.length)
    (hout : i < offset ∨ offset + d.length ≤ i) :
    (writeBytes rom offset d).getD i 0 = rom.getD i 0 := by
  simp only [writeBytes, List.getD_eq_getElem?_getD]
  rcases hout with hlt | hge
  · rw [List.getElem?_append_left
          (by rw [List.length_append, List.length_take]; omega),
        List.getElem?_append_left (by rw [List.length_take]; omega),
        List.getElem?_take_of_lt hlt]
  · rw [List.getElem?_append_right
          (by rw [List.length_append, List.length_take]; omega),
        List.getElem?_drop]
    have hidx : offset + d.length + (i - (rom.take offset ++ d).length) = i := by
      rw [List.length_append, List.length_take]; omega
    rw [hidx]

/-- Bytes inside the written window come from the data. -/
theorem writeBytes_getD_inside (rom d : List Nat) (offset i : Nat)
    (h : offset + d.length ≤ rom.length) (hi : i < d.length) :
    (writeBytes rom offset d).getD (offset + i) 0 = d.getD i 0 := by
  simp only [writeBytes, List.getD_eq_getElem?_getD]
  rw [List.getElem?_append_left
        (by rw [List.length_append, List.length_take]; omega),
      List.getElem?_append_right (by rw [List.length_take]; omega)]
  have hlt : offset + i - (rom.take offset).length = i := by
    rw [List.length_take]; omega
  rw [hlt]

/-- On a ROM image holding all 12 bytes of descriptor `i`, the checked
parse agrees with the total one. -/
theorem parseSampleChecked_eq (rom : List Nat) (i : Nat)
    (h : i * 12 + 11 < rom.length) :
    parseSampleChecked rom i = some (parseSample rom i) := by
  have g : ∀ k, k ≤ 11 → rom[i * 12 + k]? = some (rom.getD (i * 12 + k) 0) := by
    intro k hk
    rw [List.getElem?_eq_getElem (by omega)]
    simp [List.getD_eq_getElem?_getD, List.getElem?_eq_getElem (show i * 12 + k < rom.length by omega)]
  have g0 : rom[i * 12]? = some (rom.getD (i * 12) 0) := by
    have := g 0 (by omega)
    simpa using this
  simp only [parseSampleChecked, g0, g 1 (by omega), g 2 (by omega), g 3 (by omega),
    g 4 (by omega), g 5 (by omega), g 6 (by omega), g 7 (by omega), g 8 (by omega),
    g 9 (by omega), g 10 (by omega), g 11 (by omega), Option.some_bind, Option.bind_some]
  rfl

/-- Concrete chip for the C5 counterexample: 6144 bytes of `0xFF` ROM
with still-zeroed descriptors. -/
def chipC5 : MultiPCM := { chip0 with ROM := List.replicate 6144 0xFF, ROMSize := 6144 }

/-- C5 counterexample: `write_rom(0, 0, [])` has an *empty* written
window `[0, 0)`, which intersects nothing — yet the descriptors are
rebuilt (the C condition is only `offset < 6144`), so descriptor 0
changes from the zero descriptor to the all-`0xFF` parse while the ROM
itself is untouched. -/
theorem write_rom_rebuild_cex :
    (multipcm_write_rom chipC5 0 0 []).ROM = chipC5.ROM ∧
    (multipcm_write_rom chipC5 0 0 []).Samples 0 ≠ chipC5.Samples 0 := by
  exact ⟨rfl, by decide⟩

/-- C5 (amended): `write_rom` beyond the ROM end is ignored entirely.
For calls whose 32-bit sum `offset + length` does not wrap, the write
is truncated to the in-range part (bytes outside the window keep their
values, bytes inside come from `data`), and all 512 descriptors are
rebuilt from the resulting ROM exactly when `offset < 6144` —
regardless of whether the written window actually intersects
`[0, 6144)` — and are left unchanged when `offset ≥ 6144`; when the ROM
holds at least 6144 bytes the rebuild's reads are all in bounds (the
checked parse agrees).  When the 32-bit sum wraps to at most `ROMSize`,
the truncation is skipped and the `memcpy` writes past the ROM end (the
checked embedding reports the overrun). -/
theorem write_rom_spec (ch : MultiPCM) (offset length : Nat) (data : List Nat)
    (hlen : ch.ROM.length = ch.ROMSize) (hdata : length ≤ data.length) :
    (ch.ROMSize < offset → multipcm_write_rom ch offset length data = ch) ∧
    (offset ≤ ch.ROMSize → offset + length < 2 ^ 32 →
      (multipcm_write_rom ch offset length data).ROM.length = ch.ROMSize ∧
      (∀ i, (i < offset ∨ offset + min length (ch.ROMSize - offset) ≤ i) →
        (multipcm_write_rom ch offset length data).ROM.getD i 0 = ch.ROM.getD i 0) ∧
      (∀ i, i < min length (ch.ROMSize - offset) →
        (multipcm_write_rom ch offset length data).ROM.getD (offset + i) 0 =
          data.getD i 0) ∧
      (offset < 6144 →
        ∀ i, (multipcm_write_rom ch offset length data).Samples i =
          parseSample (multipcm_write_rom ch offset length data).ROM i) ∧
      (6144 ≤ offset →
        ∀ i, (multipcm_write_rom ch offset length data).Samples i = ch.Samples i) ∧
      (offset < 6144 → 6144 ≤ ch.ROMSize → ∀ i, i < 512 →
        parseSampleChecked (multipcm_write_rom ch offset length data).ROM i =
          some ((multipcm_write_rom ch offset length data).Samples i))) ∧
    (offset ≤ ch.ROMSize → ch.ROMSize < 2 ^ 32 → 2 ^ 32 ≤ offset + length →
      (offset + length) % 2 ^ 32 ≤ ch.ROMSize →
      write_rom_checked ch offset length data = none) := by
  refine ⟨?_, ?_, ?_⟩
  · intro h
    simp [multipcm_write_rom, h]
  · intro h hnw
    have hnlt : ¬ ch.ROMSize < offset := by omega
    have hifmin : (if ch.ROMSize < (offset + length) % 2 ^ 32
        then ch.ROMSize - offset else length) = min length (ch.ROMSize - offset) := by
      rw [Nat.mod_eq_of_lt hnw]
      split_ifs with h1 <;> omega
    have htl : (data.take (min length (ch.ROMSize - offset))).length =
        min length (ch.ROMSize - offset) := by
      rw [List.length_take]; omega
    have hfit : offset + (data.take (min length (ch.ROMSize - offset))).length ≤
        ch.ROM.length := by
      rw [htl, hlen]; omega
    have hROM : (multipcm_write_rom ch offset length data).ROM =
        writeBytes ch.ROM offset (data.take (min length (ch.ROMSize - offset))) := by
      simp only [multipcm_write_rom, if_neg hnlt, hifmin]
      split <;> rfl
    refine ⟨?_, ?_, ?_, ?_, ?_, ?_⟩
    · rw [hROM, writeBytes_length _ _ _ hfit, hlen]
    · intro i hi
      rw [hROM, writeBytes_getD_outside _ _ _ _ hfit (by rw [htl]; omega)]
    · intro i hi
      rw [hROM, writeBytes_getD_inside _ _ _ _ hfit (by omega),
          List.getD_eq_getElem?_getD, List.getD_eq_getElem?_getD,
          List.getElem?_take_of_lt hi]
    · intro hoff i
      simp only [multipcm_write_rom, if_neg hnlt]
      rw [if_pos (by omega : offset < 0x200 * 12)]
    · intro hoff i
      simp only [multipcm_write_rom, if_neg hnlt]
      rw [if_neg (by omega : ¬ offset < 0x200 * 12)]
    · intro hoff hrs i hi
      have hb : i * 12 + 11 < (multipcm_write_rom ch offset length data).ROM.length := by
        rw [hROM, writeBytes_length _ _ _ hfit, hlen]; omega
      rw [parseSampleChecked_eq _ _ hb]
      simp only [multipcm_write_rom, if_neg hnlt]
      rw [if_pos (by omega : offset < 0x200 * 12)]
  · intro h hsz32 hwrap hmod
    have h1 : ¬ ch.ROMSize < offset := by omega
    have h2 : ¬ ch.ROMSize < (offset + length) % 2 ^ 32 := by omega
    have h3 : ch.ROMSize < offset + length := by omega
    simp only [write_rom_checked, if_neg h1, if_neg h2, if_pos h3]

/-- C5 witness: `write_rom_spec` on the concrete chip, writing 2 bytes
at offset 3 (a non-wrapping call). -/
theorem write_rom_spec_w :
    (chipC5.ROMSize < 3 → multipcm_write_rom chipC5 3 2 [7, 9] = chipC5) ∧
    (3 ≤ chipC5.ROMSize → 3 + 2 < 2 ^ 32 →
      (multipcm_write_rom chipC5 3 2 [7, 9]).ROM.length = chipC5.ROMSize ∧
      (∀ i, (i < 3 ∨ 3 + min 2 (chipC5.ROMSize - 3) ≤ i) →
        (multipcm_write_rom chipC5 3 2 [7, 9]).ROM.getD i 0 = chipC5.ROM.getD i 0) ∧
      (∀ i, i < min 2 (chipC5.ROMSize - 3) →
        (multipcm_write_rom chipC5 3 2 [7, 9]).ROM.getD (3 + i) 0 =
          List.getD [7, 9] i 0) ∧
      (3 < 6144 →
        ∀ i, (multipcm_write_rom chipC5 3 2 [7, 9]).Samples i =
          parseSample (multipcm_write_rom chipC5 3 2 [7, 9]).ROM i) ∧
      (6144 ≤ 3 →
        ∀ i, (multipcm_write_rom chipC5 3 2 [7, 9]).Samples i = chipC5.Samples i) ∧
      (3 < 6144 → 6144 ≤ chipC5.ROMSize → ∀ i, i < 512 →
        parseSampleChecked (multipcm_write_rom chipC5 3 2 [7, 9]).ROM i =
          some ((multipcm_write_rom chipC5 3 2 [7, 9]).Samples i))) ∧
    (3 ≤ chipC5.ROMSize → chipC5.ROMSize < 2 ^ 32 → 2 ^ 32 ≤ 3 + 2 →
      (3 + 2) % 2 ^ 32 ≤ chipC5.ROMSize →
      write_rom_checked chipC5 3 2 [7, 9] = none) :=
  write_rom_spec chipC5 3 2 [7, 9]
    (by rw [show chipC5.ROM = List.replicate 6144 0xFF from rfl, List.length_replicate]
        exact rfl)
    (by norm_num)

/-- `EG_Update` only touches the envelope and the `Playing` flag: the
LFO states and the phase accumulator pass through unchanged. -/
theorem EG_Update_preserves (lin2exp : Nat → Int) (slot : Slot) :
    (EG_Update lin2exp slot).1.PLFO = slot.PLFO ∧
    (EG_Update lin2exp slot).1.ALFO = slot.ALFO ∧
    (EG_Update lin2exp slot).1.offset = slot.offset := by
  obtain ⟨regs, pl, si, base, off, st, pan, tl, dst, tls, prev, eg, plf, alf, mu⟩ := slot
  obtain ⟨v, s, a, d1, d2, rr, dl⟩ := eg
  cases s <;> simp only [EG_Update] <;> (try split_ifs) <;> simp

/-- LFO state for the C3 counterexample: a non-zero `phase_step`. -/
def lfoC3 : LFOd := { phase := 0, phase_step := 5, table := fun _ => 0, scale := fun _ => 0 }

/-- Playing, unmuted voice with both LFO depth fields zero
(`Regs[6] & 7 = 0`, `Regs[7] & 7 = 0`). -/
def slotC3 : Slot := { slot0 with Playing := true, PLFO := lfoC3, ALFO := lfoC3 }

/-- C3 counterexample: for a playing, unmuted voice whose depth bits
are zero, a rendered sample leaves both LFO phases untouched — they are
*not* advanced by the (non-zero) `phase_step`, because `PLFO_Step` and
`ALFO_Step` are only invoked inside the depth-bit conditionals. -/
theorem slotRender_lfo_cex :
    slotC3.Regs 6 &&& 7 = 0 ∧ slotC3.PLFO.phase_step ≠ 0 ∧
    (slotRender chip0 slotC3).1.PLFO.phase ≠
      (slotC3.PLFO.phase + slotC3.PLFO.phase_step) % 65536 ∧
    (slotRender chip0 slotC3).1.ALFO.phase ≠
      (slotC3.ALFO.phase + slotC3.ALFO.phase_step) % 65536 := by
  refine ⟨by decide, by decide, by decide, by decide⟩

/-- C3 (amended): per rendered sample of a playing, unmuted voice, the
PLFO phase advances by `phase_step` exactly when `Regs[6] & 7 ≠ 0`
(otherwise the PLFO is untouched), and then its result multiplies the
voice's step in the phase advance; likewise the ALFO phase advances
exactly when `Regs[7] & 7 ≠ 0` (when it is zero the interpolated sample
is not multiplied and the ALFO is untouched). -/
theorem slotRender_lfo (ch : MultiPCM) (slot : Slot)
    (hP : slot.Playing = true) (hM : slot.Muted = false) :
    (slot.Regs 6 &&& 7 ≠ 0 →
        (slotRender ch slot).1.PLFO.phase =
          (slot.PLFO.phase + slot.PLFO.phase_step) % 65536) ∧
    (slot.Regs 6 &&& 7 = 0 → (slotRender ch slot).1.PLFO = slot.PLFO) ∧
    (slot.Regs 7 &&& 7 ≠ 0 →
        (slotRender ch slot).1.ALFO.phase =
          (slot.ALFO.phase + slot.ALFO.phase_step) % 65536) ∧
    (slot.Regs 7 &&& 7 = 0 → (slotRender ch slot).1.ALFO = slot.ALFO) ∧
    (slot.Regs 6 &&& 7 = 0 →
        (slotRender ch slot).1.offset =
          (if (ch.Samples slot.SampleIdx).End <<< 12 ≤ (slot.offset + slot.step) % 2 ^ 32
           then (ch.Samples slot.SampleIdx).Loop <<< 12
           else (slot.offset + slot.step) % 2 ^ 32)) ∧
    (slot.Regs 6 &&& 7 ≠ 0 →
        (slotRender ch slot).1.offset =
          (if (ch.Samples slot.SampleIdx).End <<< 12 ≤
                (slot.offset +
                  (((slot.step : Int) * (PLFO_Step slot.PLFO).2) % 2 ^ 32).toNat >>> 12) % 2 ^ 32
           then (ch.Samples slot.SampleIdx).Loop <<< 12
           else (slot.offset +
                  (((slot.step : Int) * (PLFO_Step slot.PLFO).2) % 2 ^ 32).toNat >>> 12) % 2 ^ 32)) := by
  simp only [slotRender, hP, hM, Bool.not_false, Bool.and_self, if_pos]
  by_cases h6 : slot.Regs 6 &&& 7 = 0 <;> by_cases h7 : slot.Regs 7 &&& 7 = 0 <;>
    simp only [h6, h7, if_pos, if_neg, ite_true, ite_false, not_true, not_false_iff,
      ne_eq, not_not] <;>
    simp [EG_Update_preserves, PLFO_Step, ALFO_Step]

/-- Playing, unmuted voice with both LFO depths enabled, for the C3
witness. -/
def slotC3b : Slot :=
  { slot0 with
    Playing := true
    Regs := fun r => if r = 6 then 1 else if r = 7 then 1 else 0
    PLFO := lfoC3
    ALFO := lfoC3 }

/-- C3 witness: `slotRender_lfo` at a concrete playing voice. -/
theorem slotRender_lfo_w :
    (slotC3b.Regs 6 &&& 7 ≠ 0 →
        (slotRender chip0 slotC3b).1.PLFO.phase =
          (slotC3b.PLFO.phase + slotC3b.PLFO.phase_step) % 65536) ∧
    (slotC3b.Regs 6 &&& 7 = 0 → (slotRender chip0 slotC3b).1.PLFO = slotC3b.PLFO) ∧
    (slotC3b.Regs 7 &&& 7 ≠ 0 →
        (slotRender chip0 slotC3b).1.ALFO.phase =
          (slotC3b.ALFO.phase + slotC3b.ALFO.phase_step) % 65536) ∧
    (slotC3b.Regs 7 &&& 7 = 0 → (slotRender chip0 slotC3b).1.ALFO = slotC3b.ALFO) ∧
    (slotC3b.Regs 6 &&& 7 = 0 →
        (slotRender chip0 slotC3b).1.offset =
          (if (chip0.Samples slotC3b.SampleIdx).End <<< 12 ≤
                (slotC3b.offset + slotC3b.step) % 2 ^ 32
           then (chip0.Samples slotC3b.SampleIdx).Loop <<< 12
           else (slotC3b.offset + slotC3b.step) % 2 ^ 32)) ∧
    (slotC3b.Regs 6 &&& 7 ≠ 0 →
        (slotRender chip0 slotC3b).1.offset =
          (if (chip0.Samples slotC3b.SampleIdx).End <<< 12 ≤
                (slotC3b.offset +
                  (((slotC3b.step : Int) * (PLFO_Step slotC3b.PLFO).2) % 2 ^ 32).toNat >>> 12) % 2 ^ 32
           then (chip0.Samples slotC3b.SampleIdx).Loop <<< 12
           else (slotC3b.offset +
                  (((slotC3b.step : Int) * (PLFO_Step slotC3b.PLFO).2) % 2 ^ 32).toNat >>> 12) % 2 ^ 32)) :=
  slotRender_lfo chip0 slotC3b (by decide) (by decide)

/-- Setting index `i` then taking `i+1` elements appends the new value
to the first `i` elements. -/
theorem set_take_succ (l : List Int) (i : Nat) (a : Int) (h : i < l.length) :
    (l.set i a).take (i + 1) = l.take i ++ [a] := by
  rw [List.take_succ, List.getElem?_set_self h, List.set_take,
      List.set_eq_of_length_le (by rw [List.length_take]; omega)]
  rfl

/-- A voice that is not playing, or muted, is untouched by `slotRender`
and contributes zero to both channels. -/
theorem slotRender_silent (ch : MultiPCM) (s : Slot)
    (h : s.Playing = false ∨ s.Muted = true) : slotRender ch s = (s, 0, 0) := by
  rcases h with h | h <;> simp [slotRender, h]

/-- With every voice stopped or muted, one render iteration leaves the
chip unchanged and accumulates zero on both channels. -/
theorem chipStep_silent (ch : MultiPCM)
    (h : ∀ s ∈ ch.Slots, s.Playing = false ∨ s.Muted = true) :
    chipStep ch = (ch, 0, 0) := by
  have hmap : ∀ f : Slot × Int × Int → Int,
      (∀ r, f (r, 0, 0) = 0) →
      ((ch.Slots.map (slotRender ch)).map f).sum = 0 := by
    intro f hf
    rw [List.map_map]
    have : ch.Slots.map (f ∘ slotRender ch) = ch.Slots.map (fun _ => 0) := by
      apply List.map_congr_left
      intro s hs
      show f (slotRender ch s) = 0
      rw [slotRender_silent ch s (h s hs)]
      exact hf s
    rw [this]
    simp
  have hfst : (ch.Slots.map (slotRender ch)).map Prod.fst = ch.Slots := by
    rw [List.map_map]
    have : ch.Slots.map (Prod.fst ∘ slotRender ch) = ch.Slots.map id := by
      apply List.map_congr_left
      intro s hs
      show (slotRender ch s).1 = s
      rw [slotRender_silent ch s (h s hs)]
    rw [this, List.map_id]
  simp only [chipStep, hfst, hmap (fun r => r.2.1) (fun _ => rfl),
    hmap (fun r => r.2.2) (fun _ => rfl)]

/-- With every voice stopped or muted, `render` produces all-zero
channels and leaves the chip unchanged. -/
theorem render_silent (n : Nat) : ∀ ch : MultiPCM,
    (∀ s ∈ ch.Slots, s.Playing = false ∨ s.Muted = true) →
    render ch n = (ch, List.replicate n 0, List.replicate n 0) := by
  induction n with
  | zero => intro ch _; rfl
  | succ n ih =>
      intro ch h
      simp only [render, chipStep_silent ch h, ih ch h, List.replicate_succ]

/-- `render` produces exactly `n` samples per channel. -/
theorem render_length (n : Nat) : ∀ ch : MultiPCM,
    (render ch n).2.1.length = n ∧ (render ch n).2.2.length = n := by
  induction n with
  | zero => intro ch; exact ⟨rfl, rfl⟩
  | succ n ih =>
      intro ch
      simp [render, (ih (chipStep ch).1).1, (ih (chipStep ch).1).2]

/-- The buffer-writing loop equals the pure sample lists spliced over
the prior buffer contents. -/
theorem MultiPCM_update_eq (n : Nat) : ∀ (ch : MultiPCM) (i : Nat) (bl br : List Int),
    i + n ≤ bl.length → i + n ≤ br.length →
    MultiPCM_update ch n i bl br =
      ((render ch n).1,
       bl.take i ++ (render ch n).2.1 ++ bl.drop (i + n),
       br.take i ++ (render ch n).2.2 ++ br.drop (i + n)) := by
  induction n with
  | zero =>
      intro ch i bl br hl hr
      simp only [MultiPCM_update, render, Nat.add_zero, List.append_nil]
      rw [List.take_append_drop, List.take_append_drop]
  | succ n ih =>
      intro ch i bl br hl hr
      have hil : i < bl.length := by omega
      have hir : i < br.length := by omega
      simp only [MultiPCM_update, render]
      rw [ih (chipStep ch).1 (i + 1) _ _
            (by rw [List.length_set]; omega) (by rw [List.length_set]; omega),
          set_take_succ _ _ _ hil, set_take_succ _ _ _ hir,
          List.drop_set, List.drop_set, if_pos (by omega), if_pos (by omega)]
      have hi1 : i + 1 + n = i + (n + 1) := by omega
      simp [hi1, List.append_assoc]

/-- C6: `MultiPCM_update` writes exactly `n` samples per channel into
the caller's buffers, *overwriting* them — the first `n` entries are
the rendered samples, independent of the buffers' prior contents, and
the rest is untouched; with every voice stopped or muted both channels
are all zeros for all `n` samples. -/
theorem MultiPCM_update_spec (ch : MultiPCM) (n : Nat) (bl br : List Int)
    (hl : n ≤ bl.length) (hr : n ≤ br.length) :
    (MultiPCM_update ch n 0 bl br).2.1 = (render ch n).2.1 ++ bl.drop n ∧
    (MultiPCM_update ch n 0 bl br).2.2 = (render ch n).2.2 ++ br.drop n ∧
    (render ch n).2.1.length = n ∧ (render ch n).2.2.length = n ∧
    (MultiPCM_update ch n 0 bl br).2.1.length = bl.length ∧
    (MultiPCM_update ch n 0 bl br).2.2.length = br.length ∧
    ((∀ s ∈ ch.Slots, s.Playing = false ∨ s.Muted = true) →
      (MultiPCM_update ch n 0 bl br).2.1.take n = List.replicate n 0 ∧
      (MultiPCM_update ch n 0 bl br).2.2.take n = List.replicate n 0) := by
  have heq := MultiPCM_update_eq n ch 0 bl br (by omega) (by omega)
  have hlen := render_length n ch
  rw [heq]
  simp only [List.take_zero, List.nil_append, Nat.zero_add]
  refine ⟨True.intro, True.intro, hlen.1, hlen.2, ?_, ?_, ?_⟩
  · rw [List.length_append, hlen.1, List.length_drop]; omega
  · rw [List.length_append, hlen.2, List.length_drop]; omega
  · intro hsil
    have hs := render_silent n ch hsil
    rw [show (render ch n).2.1 = List.replicate n 0 by rw [hs],
        show (render ch n).2.2 = List.replicate n 0 by rw [hs]]
    exact ⟨List.take_left' (by simp), List.take_left' (by simp)⟩

/-- All-stopped 28-voice chip for the C6 witness. -/
def chipC6 : MultiPCM := { chip0 with Slots := List.replicate 28 slot0 }

/-- C6 witness: `MultiPCM_update_spec` on the concrete stopped chip,
two samples into length-3 buffers. -/
theorem MultiPCM_update_spec_w :
    (MultiPCM_update chipC6 2 0 [5, 6, 7] [8, 9, 10]).2.1 =
      (render chipC6 2).2.1 ++ List.drop 2 [5, 6, 7] ∧
    (MultiPCM_update chipC6 2 0 [5, 6, 7] [8, 9, 10]).2.2 =
      (render chipC6 2).2.2 ++ List.drop 2 [8, 9, 10] ∧
    (render chipC6 2).2.1.length = 2 ∧ (render chipC6 2).2.2.length = 2 ∧
    (MultiPCM_update chipC6 2 0 [5, 6, 7] [8, 9, 10]).2.1.length =
      List.length [5, 6, 7] ∧
    (MultiPCM_update chipC6 2 0 [5, 6, 7] [8, 9, 10]).2.2.length =
      List.length [8, 9, 10] ∧
    ((∀ s ∈ chipC6.Slots, s.Playing = false ∨ s.Muted = true) →
      (MultiPCM_update chipC6 2 0 [5, 6, 7] [8, 9, 10]).2.1.take 2 =
        List.replicate 2 0 ∧
      (MultiPCM_update chipC6 2 0 [5, 6, 7] [8, 9, 10]).2.2.take 2 =
        List.replicate 2 0) :=
  MultiPCM_update_spec chipC6 2 [5, 6, 7] [8, 9, 10] (by decide) (by decide)

/-- A 7-bit TL index has a zero pan nibble. -/
theorem tl_shiftr7 (tl : Nat) (h : tl < 128) : tl >>> 7 = 0 := by
  have hb : ∀ t, t < 128 → t >>> 7 = 0 := by decide
  exact hb tl h

/-- Oring a 7-bit TL into pan nibble 8 is plain addition. -/
theorem tl_or_1024 (tl : Nat) (h : tl < 128) : tl ||| 1024 = 1024 + tl := by
  have hb : ∀ t, t < 128 → t ||| 1024 = 1024 + t := by decide
  exact hb tl h

/-- The pan nibble of index `1024 + tl` is 8. -/
theorem nib_1024 (tl : Nat) (h : tl < 128) : ((1024 + tl) >>> 7) &&& 0xf = 8 := by
  have hb : ∀ t, t < 128 → ((1024 + t) >>> 7) &&& 0xf = 8 := by decide
  exact hb tl h

/-- With pan nibble 0 the two pan/volume LUTs agree. -/
theorem LPANTABLEr_eq_pan0 (tl : Nat) (h : tl < 128) :
    LPANTABLEr tl = RPANTABLEr tl := by
  unfold LPANTABLEr RPANTABLEr
  rw [tl_shiftr7 tl h]
  simp [panLR]

/-- With pan nibble 8 the left LUT entry is zero. -/
theorem LPANTABLEr_pan8 (tl : Nat) (h : tl < 128) : LPANTABLEr (1024 + tl) = 0 := by
  unfold LPANTABLEr
  rw [nib_1024 tl h]
  simp [panLR]

/-- With pan nibble 8 the right LUT entry is zero. -/
theorem RPANTABLEr_pan8 (tl : Nat) (h : tl < 128) : RPANTABLEr (1024 + tl) = 0 := by
  unfold RPANTABLEr
  rw [nib_1024 tl h]
  simp [panLR]

/-- C7: for every TL in `[0, 0x7f]`, with pan 0 the left and right
pan/volume LUT entries at `(0 << 7) | TL` coincide, so a playing,
unmuted pan-0 voice contributes identical values to both channels in a
render step; with pan 8 both entries are zero and the voice contributes
zero to both channels. -/
theorem pan_symmetry (tl : Nat) (htl : tl ≤ 0x7f) (ch : MultiPCM) (slot : Slot)
    (hL : ch.LPANTABLE = LPANTABLEr) (hR : ch.RPANTABLE = RPANTABLEr)
    (hP : slot.Playing = true) (hM : slot.Muted = false)
    (hTL : slot.TL >>> 12 = tl) :
    LPANTABLEr ((0 <<< 7) ||| tl) = RPANTABLEr ((0 <<< 7) ||| tl) ∧
    LPANTABLEr ((8 <<< 7) ||| tl) = 0 ∧
    RPANTABLEr ((8 <<< 7) ||| tl) = 0 ∧
    (slot.Pan = 0 → (slotRender ch slot).2.1 = (slotRender ch slot).2.2) ∧
    (slot.Pan = 8 → (slotRender ch slot).2.1 = 0 ∧ (slotRender ch slot).2.2 = 0) := by
  have h128 : tl < 128 := by omega
  have hidx0 : (0 <<< 7) ||| tl = tl := by simp
  have hidx8 : (8 <<< 7) ||| tl = 1024 + tl := by
    have : (8 <<< 7 : Nat) = 1024 := rfl
    rw [this, Nat.or_comm, tl_or_1024 tl h128]
  refine ⟨?_, ?_, ?_, ?_, ?_⟩
  · rw [hidx0]; exact LPANTABLEr_eq_pan0 tl h128
  · rw [hidx8]; exact LPANTABLEr_pan8 tl h128
  · rw [hidx8]; exact RPANTABLEr_pan8 tl h128
  · intro hPan
    have hvol : (slot.TL >>> 12) ||| (slot.Pan <<< 7) = tl := by
      rw [hTL, hPan]; simp
    simp only [slotRender, hP, hM, Bool.not_false, Bool.and_self, if_pos, hvol,
      hL, hR, LPANTABLEr_eq_pan0 tl h128]
  · intro hPan
    have hvol : (slot.TL >>> 12) ||| (slot.Pan <<< 7) = 1024 + tl := by
      rw [hTL, hPan]
      have : (8 <<< 7 : Nat) = 1024 := rfl
      rw [this, tl_or_1024 tl h128]
    simp only [slotRender, hP, hM, Bool.not_false, Bool.and_self, if_pos, hvol,
      hL, hR, LPANTABLEr_pan8 tl h128, RPANTABLEr_pan8 tl h128, zero_mul]
    constructor <;> simp [asr]

/-- Chip carrying the modelled pan/volume LUTs, for the C7 witness. -/
noncomputable def chipC7 : MultiPCM :=
  { chip0 with LPANTABLE := LPANTABLEr, RPANTABLE := RPANTABLEr }

/-- Playing, unmuted, centre-panned voice for the C7 witness. -/
def slotC7 : Slot := { slot0 with Playing := true }

/-- C7 witness: `pan_symmetry` at `TL = 0` on a concrete voice. -/
theorem pan_symmetry_w :
    LPANTABLEr ((0 <<< 7) ||| 0) = RPANTABLEr ((0 <<< 7) ||| 0) ∧
    LPANTABLEr ((8 <<< 7) ||| 0) = 0 ∧
    RPANTABLEr ((8 <<< 7) ||| 0) = 0 ∧
    (slotC7.Pan = 0 → (slotRender chipC7 slotC7).2.1 = (slotRender chipC7 slotC7).2.2) ∧
    (slotC7.Pan = 8 → (slotRender chipC7 slotC7).2.1 = 0 ∧
      (slotRender chipC7 slotC7).2.2 = 0) :=
  pan_symmetry 0 (by decide) chipC7 slotC7 rfl rfl (by decide) (by decide) (by decide)
